import Mathlib

/-!
Verification of the Trading Partner bot (src/trading_partner_bot.py).

The development shallowly embeds the algorithmic core of the bot:
the greedy word wrapper `wrap_text`, the snapshot table renderer's cell
logic and geometry from `generate_trading_snapshot`, the conversation
session machine (`handle_answer`, `handle_verdict`, dispatched by
`ask_next_question`'s returned state), the JSON persistence layer
(`load_user_data`, `save_user_config`) and the setup flow
(`setup_questions`).  Python strings are modelled as Lean `String`;
Python string primitives used by the bot (`str.split`, `str.strip`,
`str.lower`, the space join of a word list, the `in` substring test) are re-implemented
structurally over the character list so that every definition evaluates
inside the kernel.
-/

/-! ## Python string primitives -/

/-- Length of a string in characters, Python `len(s)`. -/
def pylen (s : String) : Nat := s.data.length

/-- Auxiliary for `pywords`: scan the characters, accumulating the current
word reversed; whitespace closes the current word, empty pieces are dropped.
This is Python `str.split()` with no separator argument. -/
def splitWordsAux : List Char → List Char → List String
  | [], [] => []
  | [], acc => [String.mk acc.reverse]
  | c :: cs, acc =>
      if c.isWhitespace then
        if acc = [] then splitWordsAux cs []
        else String.mk acc.reverse :: splitWordsAux cs []
      else splitWordsAux cs (c :: acc)

/-- Python `text.split()`: the whitespace-separated words of `text`. -/
def pywords (text : String) : List String := splitWordsAux text.data []

/-- Python `s.strip()`: remove leading and trailing whitespace. -/
def pystrip (s : String) : String :=
  String.mk (((s.data.dropWhile Char.isWhitespace).reverse.dropWhile Char.isWhitespace).reverse)

/-- Python `s.lower()` (ASCII case folding, as used on the verdict text). -/
def pylower (s : String) : String := String.mk (s.data.map Char.toLower)

/-- Auxiliary for `pySplitNl`: Python `s.split('\n')`, which keeps empty
pieces (unlike `str.split()` with no argument). -/
def splitLinesAux : List Char → List Char → List String
  | [], acc => [String.mk acc.reverse]
  | c :: cs, acc =>
      if c = '\n' then String.mk acc.reverse :: splitLinesAux cs []
      else splitLinesAux cs (c :: acc)

/-- Python `s.split('\n')`. -/
def pySplitNl (s : String) : List String := splitLinesAux s.data []

/-- Does `pat` occur at the start of `hay`?  (List-of-characters level.) -/
def charsLead : List Char → List Char → Bool
  | [], _ => true
  | _ :: _, [] => false
  | a :: as, b :: bs => (a == b) && charsLead as bs

/-- Does `pat` occur somewhere inside `hay`?  (List-of-characters level.) -/
def hasSub (pat : List Char) : List Char → Bool
  | [] => charsLead pat []
  | c :: rest => charsLead pat (c :: rest) || hasSub pat rest

/-- Python `pat in s`: substring containment test. -/
def strIn (pat s : String) : Bool := hasSub pat.data s.data

/-- The Python join of a word list with single spaces. -/
def joinSp : List String → String
  | [] => ""
  | [w] => w
  | w :: v :: ws => w ++ " " ++ joinSp (v :: ws)

/-! ## The greedy word wrapper, `wrap_text` -/

/-- The loop of `wrap_text`: fold the remaining words into the accumulated
finished `lines` and the `current` line, exactly as the Python loop does.
`measure` abstracts `font.getbbox(test_line)[2] - font.getbbox(test_line)[0]`. -/
def wrapCore (measure : String → Nat) (maxWidth : Nat) :
    List String → List String → List String → List String
  | lines, current, [] =>
      if current = [] then lines else lines ++ [joinSp current]
  | lines, current, word :: rest =>
      if measure (joinSp (current ++ [word])) ≤ maxWidth then
        wrapCore measure maxWidth lines (current ++ [word]) rest
      else if current = [] then
        wrapCore measure maxWidth lines [word] rest
      else
        wrapCore measure maxWidth (lines ++ [joinSp current]) [word] rest

/-- Embedding of `wrap_text(text, font, max_width)`: greedy word wrapping;
returns `[text]` when no line was produced (the Python
`return lines if lines else [text]`). -/
def wrap_text (text : String) (measure : String → Nat) (max_width : Nat) : List String :=
  if wrapCore measure max_width [] [] (pywords text) = [] then [text]
  else wrapCore measure max_width [] [] (pywords text)

/-- A deliberately non-monotone measure function: `"AAAA b"` gets width 0,
every other string its character count.  Legal for `wrap_text`, whose
measure parameter is arbitrary. -/
def cexMeasure (s : String) : Nat := if s = "AAAA b" then 0 else pylen s


/-! ## Snapshot renderer: style constants and geometry

Constants from the CONFIGURATION block and the dimension computations at the
top of `generate_trading_snapshot`. -/

def IMAGE_WIDTH : Nat := 1200
def IMAGE_PADDING : Nat := 60
def HEADER_HEIGHT : Nat := 180
def ROW_HEIGHT : Nat := 70
def FOOTER_HEIGHT : Nat := 50

def COLORS_verdict_buy : String := "#00FF94"
def COLORS_verdict_sell : String := "#FF4757"
def COLORS_verdict_standby : String := "#FFB800"

/-- `pair_col_width = 180` in `generate_trading_snapshot`. -/
def pair_col_width : Nat := 180

/-- `table_height = HEADER_HEIGHT + (num_rows * ROW_HEIGHT) + FOOTER_HEIGHT
+ (IMAGE_PADDING * 2)` where `num_rows = len(pairs)`; this is the height of
the created image. -/
def table_height (pairs : List String) : Nat :=
  HEADER_HEIGHT + pairs.length * ROW_HEIGHT + FOOTER_HEIGHT + IMAGE_PADDING * 2

/-- `question_col_width = remaining_width // len(questions)` with
`remaining_width = IMAGE_WIDTH - (IMAGE_PADDING * 2) - pair_col_width`. -/
def question_col_width (questions : List String) : Nat :=
  (IMAGE_WIDTH - IMAGE_PADDING * 2 - pair_col_width) / questions.length

/-! ## Snapshot renderer: body cells -/

/-- Index-aware map, used to embed `for i, line in enumerate(...)`. -/
def enumMapFrom (f : Nat → String → String) : Nat → List String → List String
  | _, [] => []
  | i, x :: xs => f i x :: enumMapFrom f (i + 1) xs

/-- The lines actually drawn for a non-verdict body cell: wrap the answer,
then if more than one line resulted keep only the first two
(`wrapped_lines[:2]`), appending `"..."` to a line exactly when
`i < len(wrapped_lines) - 1 or len(wrapped_lines) <= 2` fails. -/
def displayedCellLines (answer : String) (measure : String → Nat) (maxWidth : Nat) :
    List String :=
  let wrapped := wrap_text answer measure maxWidth
  if wrapped.length = 1 then wrapped
  else
    enumMapFrom
      (fun i line =>
        if i < wrapped.length - 1 ∨ wrapped.length ≤ 2 then line else line ++ "...")
      0 (wrapped.take 2)

/-- Color and text drawn for a verdict cell (the `q_idx == len(questions)-1`
branch of the body-row loop): case-insensitive substring classification of
the answer, `buy` before `sell` before the standby fallback, drawn as
`f"{symbol} {answer}"` in one `draw.text` call. -/
def renderVerdictCell (answer : String) : String × String :=
  let verdict_lower := pylower answer
  if strIn "buy" verdict_lower then (COLORS_verdict_buy, "▲" ++ " " ++ answer)
  else if strIn "sell" verdict_lower then (COLORS_verdict_sell, "▼" ++ " " ++ answer)
  else (COLORS_verdict_standby, "■" ++ " " ++ answer)

/-- What the body-row loop draws for one cell: either a single colored,
unwrapped verdict string, or the (possibly truncated) wrapped lines of a
free-text answer. -/
inductive CellRender where
  | verdict (color : String) (text : String)
  | plain (lines : List String)
deriving DecidableEq

/-- One body cell of the snapshot table, as drawn by the answer loop in
`generate_trading_snapshot`: the last question column gets the verdict
styling, every other column gets wrapped text bounded by
`question_col_width - 20`. -/
def renderBodyCell (questions : List String) (measure : String → Nat)
    (qcw : Nat) (q_idx : Nat) (answer : String) : CellRender :=
  if q_idx = questions.length - 1 then
    CellRender.verdict (renderVerdictCell answer).1 (renderVerdictCell answer).2
  else
    CellRender.plain (displayedCellLines answer measure (qcw - 20))

/-! ## Spec-side verdict classifier

Second definition, following the words of the specification (section 4.2)
for the refinement comparison with `renderVerdictCell`: classify by
case-insensitive substring, `buy` first, then `sell`, otherwise standby. -/

inductive VerdictCategory where
  | BUY
  | SELL
  | STANDBY
deriving DecidableEq

/-- Modelled from the spec's words: the verdict category of a raw answer. -/
def specVerdictCategory (answer : String) : VerdictCategory :=
  if strIn "buy" (pylower answer) then VerdictCategory.BUY
  else if strIn "sell" (pylower answer) then VerdictCategory.SELL
  else VerdictCategory.STANDBY

/-- Modelled from the spec's words: the symbol of each verdict category. -/
def specSymbol : VerdictCategory → String
  | VerdictCategory.BUY => "▲"
  | VerdictCategory.SELL => "▼"
  | VerdictCategory.STANDBY => "■"

/-- Modelled from the spec's words: the accent color of each category. -/
def specColor : VerdictCategory → String
  | VerdictCategory.BUY => COLORS_verdict_buy
  | VerdictCategory.SELL => COLORS_verdict_sell
  | VerdictCategory.STANDBY => COLORS_verdict_standby


/-! ## Insertion-ordered string-keyed dictionaries

Python `dict` restricted to the operations the bot uses. -/

/-- Python `d.get(k)` / `d[k]` lookup on an insertion-ordered dict. -/
def pyDictGet {α : Type} : List (String × α) → String → Option α
  | [], _ => none
  | (k, v) :: rest, key => if k = key then some v else pyDictGet rest key

/-- Python `d[k] = v`: replace in place, or append a new entry. -/
def pyDictSet {α : Type} : List (String × α) → String → α → List (String × α)
  | [], key, v => [(key, v)]
  | (k, w) :: rest, key, v =>
      if k = key then (key, v) :: rest else (k, w) :: pyDictSet rest key v

/-- Python `d[k].append(a)` on a dict of string lists, assuming the key is
present (the caller checks); entries with other keys are untouched. -/
def dictAppendAnswer : List (String × List String) → String → String →
    List (String × List String)
  | [], _, _ => []
  | (k, v) :: rest, key, a =>
      if k = key then (k, v ++ [a]) :: rest else (k, v) :: dictAppendAnswer rest key a

/-! ## Session state machine

The conversation state carried in `context.user_data` during a run:
`pairs`, `questions`, `current_pair_index`, `current_question_index` and the
`answers` dict.  Which handler receives the next message is decided by the
state `ask_next_question` returned, namely `VERDICT_SELECTION` exactly when
`q_idx == len(questions) - 1`. -/

structure Session where
  pairs : List String
  questions : List String
  pairIdx : Nat
  qIdx : Nat
  answers : List (String × List String)
deriving DecidableEq

/-- Errors a message handler can signal: the two re-prompt rejections and
the uncaught `KeyError` that `handle_verdict` raises when the answers dict
has no entry for the current pair. -/
inductive SubmitError where
  | emptyAnswer
  | invalidVerdict
  | keyError
deriving DecidableEq

/-- Embedding of `handle_answer`: strip the text, reject an empty answer
without touching the state, otherwise create the pair's answer list if
missing, append the answer, and advance the indices.  The session is only
handed messages while active, so `pairs[pair_idx]` is totalized with
`getD`. -/
def handle_answer (s : Session) (text : String) : Session × Option SubmitError :=
  let answer := pystrip text
  if answer = "" then (s, some SubmitError.emptyAnswer)
  else
    let current_pair := s.pairs.getD s.pairIdx ""
    let answers0 :=
      if (pyDictGet s.answers current_pair).isSome then s.answers
      else s.answers ++ [(current_pair, [])]
    let answers1 := dictAppendAnswer answers0 current_pair answer
    if s.questions.length ≤ s.qIdx + 1 then
      ({ s with answers := answers1, pairIdx := s.pairIdx + 1, qIdx := 0 }, none)
    else
      ({ s with answers := answers1, qIdx := s.qIdx + 1 }, none)

/-- Embedding of `handle_verdict`: strip the text, reject anything but the
three literal tokens without touching the state; on success append to the
pair's existing answer list (`KeyError` if the dict has no such key, as in
`answers[current_pair].append(verdict)`) and move to the next pair. -/
def handle_verdict (s : Session) (text : String) : Session × Option SubmitError :=
  let verdict := pystrip text
  if verdict = "Buy" ∨ verdict = "Sell" ∨ verdict = "Stand by" then
    let current_pair := s.pairs.getD s.pairIdx ""
    match pyDictGet s.answers current_pair with
    | none => (s, some SubmitError.keyError)
    | some _ =>
        ({ s with answers := dictAppendAnswer s.answers current_pair verdict,
                  pairIdx := s.pairIdx + 1, qIdx := 0 }, none)
  else (s, some SubmitError.invalidVerdict)

/-- One inbound message: routed to `handle_verdict` when the active slot is
the verdict slot (`ask_next_question` returned `VERDICT_SELECTION`), to
`handle_answer` otherwise. -/
def submitMessage (s : Session) (text : String) : Session × Option SubmitError :=
  if s.qIdx = s.questions.length - 1 then handle_verdict s text
  else handle_answer s text

/-- The session `start` builds from a stored config: fresh indices, empty
answers dict. -/
def startSession (pairs questions : List String) : Session :=
  { pairs := pairs, questions := questions, pairIdx := 0, qIdx := 0, answers := [] }

/-- `ask_next_question`'s completion test: `pair_idx >= len(pairs)` hands
off to snapshot generation. -/
def isCompleted (s : Session) : Bool := s.pairs.length ≤ s.pairIdx

/-- Feed a list of messages to the session, stopping at the first
rejection. -/
def runSubmits : Session → List String → Session × Option SubmitError
  | s, [] => (s, none)
  | s, t :: ts =>
      match submitMessage s t with
      | (s', none) => runSubmits s' ts
      | (s', some e) => (s', some e)

/-- A message is valid for the active slot: one of the three verdict tokens
at a verdict slot, any non-blank text elsewhere. -/
def validMessage (s : Session) (t : String) : Bool :=
  if s.qIdx = s.questions.length - 1 then
    decide (pystrip t = "Buy" ∨ pystrip t = "Sell" ∨ pystrip t = "Stand by")
  else decide (pystrip t ≠ "")

/-- Every message of the list is valid for the slot active when it
arrives. -/
def validRun : Session → List String → Bool
  | _, [] => true
  | s, t :: ts => validMessage s t && validRun (submitMessage s t).1 ts

/-- Invariant of reachable active sessions: the question index is in range,
and once a pair's run has begun its answers entry exists. -/
def SessionInv (s : Session) : Prop :=
  s.qIdx < s.questions.length ∧
    (0 < s.qIdx → (pyDictGet s.answers (s.pairs.getD s.pairIdx "")).isSome = true)

/-! ## Persistence layer -/

/-- A stored per-user configuration record. -/
structure PyConfig where
  pairs : List String
  questions : List String
deriving DecidableEq

/-- Python-side failure of the storage layer that is not caught. -/
inductive PyError where
  | osError
deriving DecidableEq

/-- The states of the data file that `load_user_data` distinguishes:
absent (`os.path.exists` false), existing but unreadable (`open` raises
`OSError`, which no handler catches), readable but not valid JSON
(`json.JSONDecodeError`, caught), or a parsed user dict. -/
inductive DataFileState where
  | missing
  | unreadable
  | invalidJson
  | parsed (data : List (String × PyConfig))
deriving DecidableEq

/-- Embedding of `load_user_data`: missing and JSON-corrupt files both give
the empty dict; a raised `OSError` propagates. -/
def load_user_data : DataFileState → Except PyError (List (String × PyConfig))
  | DataFileState.missing => Except.ok []
  | DataFileState.unreadable => Except.error PyError.osError
  | DataFileState.invalidJson => Except.ok []
  | DataFileState.parsed d => Except.ok d

/-- Embedding of `get_user_config`: load the store, look the user up. -/
def get_user_config (fs : DataFileState) (user_id : String) :
    Except PyError (Option PyConfig) :=
  (load_user_data fs).map (fun d => pyDictGet d user_id)

/-- Embedding of `save_user_config` on an already-loaded store:
`data[str(user_id)] = config`. -/
def save_user_config (store : List (String × PyConfig)) (user_id : String)
    (config : PyConfig) : List (String × PyConfig) :=
  pyDictSet store user_id config

/-! ## Setup flow -/

/-- The `ConversationHandler` states plus its `END` marker. -/
inductive ConvState where
  | SETUP_PAIRS
  | SETUP_QUESTIONS
  | ANSWERING
  | VERDICT_SELECTION
  | END
deriving DecidableEq

/-- Rejection signalled during setup. -/
inductive SetupError where
  | wrongQuestionCount (entered : Nat)
deriving DecidableEq

/-- The question list `setup_questions` parses from one message:
strip the message, split on newlines, strip each line, drop blanks. -/
def parse_questions (text : String) : List String :=
  ((pySplitNl (pystrip text)).map pystrip).filter (fun q => q ≠ "")

/-- Embedding of `setup_questions`: anything but exactly 4 questions is
rejected and the conversation stays in `SETUP_QUESTIONS` with the store
untouched; 4 questions are saved under the user's id and the conversation
ends. -/
def setup_questions (store : List (String × PyConfig)) (user_id : String)
    (pairsCtx : List String) (text : String) :
    List (String × PyConfig) × ConvState × Option SetupError :=
  let questions := parse_questions text
  if questions.length ≠ 4 then
    (store, ConvState.SETUP_QUESTIONS, some (SetupError.wrongQuestionCount questions.length))
  else
    (save_user_config store user_id { pairs := pairsCtx, questions := questions },
      ConvState.END, none)


/-! ## Equation lemmas for the session runner -/

theorem runSubmits_cons (s : Session) (t : String) (ts : List String) :
    runSubmits s (t :: ts) =
      match submitMessage s t with
      | (s', none) => runSubmits s' ts
      | (s', some e) => (s', some e) := rfl

theorem validRun_cons (s : Session) (t : String) (ts : List String) :
    validRun s (t :: ts) = (validMessage s t && validRun (submitMessage s t).1 ts) := rfl

/-! ## Dictionary lemmas -/

theorem pyDictGet_pyDictSet_self {α : Type} (d : List (String × α)) (k : String) (v : α) :
    pyDictGet (pyDictSet d k v) k = some v := by
  induction d with
  | nil => simp [pyDictSet, pyDictGet]
  | cons p rest ih =>
      by_cases h : p.1 = k
      · simp [pyDictSet, pyDictGet, h]
      · simp [pyDictSet, pyDictGet, h, ih]

theorem pyDictGet_dictAppendAnswer_self (d : List (String × List String)) (k a : String)
    (v : List String) (hv : pyDictGet d k = some v) :
    pyDictGet (dictAppendAnswer d k a) k = some (v ++ [a]) := by
  induction d with
  | nil => simp [pyDictGet] at hv
  | cons p rest ih =>
      by_cases h : p.1 = k
      · simp [pyDictGet, h] at hv
        simp [dictAppendAnswer, pyDictGet, h, hv]
      · simp [pyDictGet, h] at hv
        simp [dictAppendAnswer, pyDictGet, h, ih hv]

theorem pyDictGet_append_new {α : Type} (d : List (String × α)) (k : String) (v : α)
    (hnone : pyDictGet d k = none) :
    pyDictGet (d ++ [(k, v)]) k = some v := by
  induction d with
  | nil => simp [pyDictGet]
  | cons p rest ih =>
      by_cases h : p.1 = k
      · simp [pyDictGet, h] at hnone
      · simp [pyDictGet, h] at hnone ⊢
        exact ih hnone

/-! ## Claim theorems: renderer geometry and persistence -/

/-- C7: the generated image is `W = 1200` wide and
`H + len(pairs)*R + F + 2P` tall with `H = 180`, `R = 70`, `F = 50`,
`P = 60`; the pair column is reserved `Cp = 180` and each question column is
`(W - 2P - Cp) / Q` wide (integer division). -/
theorem snapshot_geometry (pairs questions : List String) :
    table_height pairs = 180 + pairs.length * 70 + 50 + 2 * 60 ∧
    IMAGE_WIDTH = 1200 ∧
    pair_col_width = 180 ∧
    question_col_width questions = (1200 - 2 * 60 - 180) / questions.length :=
  ⟨rfl, rfl, rfl, rfl⟩

/-- C8 (amended): a data file that exists but does not decode as JSON loads
exactly like an absent file (empty store, so `get_user_config` finds nothing
and fresh setup begins), with no error propagated; an existing file that
cannot be opened is NOT covered, its `OSError` propagates. -/
theorem load_corrupt_as_absent (user_id : String) :
    load_user_data DataFileState.invalidJson = load_user_data DataFileState.missing ∧
    get_user_config DataFileState.invalidJson user_id = Except.ok none ∧
    get_user_config DataFileState.missing user_id = Except.ok none :=
  ⟨rfl, rfl, rfl⟩

/-- C8 counterexample: an unreadable (but existing) data file makes
`load_user_data` propagate the raised `OSError` instead of behaving like
absent data — only `json.JSONDecodeError` is caught. -/
theorem load_unreadable_cex :
    load_user_data DataFileState.unreadable = Except.error PyError.osError ∧
    load_user_data DataFileState.unreadable ≠ load_user_data DataFileState.missing :=
  ⟨rfl, by intro h; exact Except.noConfusion h⟩

/-- C3 (code bug): the answer `"aa bb cc"` wraps to three lines at width 2
under the character-count measure, so the claimed behavior is to display
`["aa", "bb..."]`; the code displays `["aa", "bb"]` — the guard
`i < len(wrapped_lines) - 1 or len(wrapped_lines) <= 2` is true for every
`i < 2` whenever three or more lines exist, so the `+ "..."` branch is
unreachable and no ellipsis is ever appended. -/
theorem truncation_marker_missing :
    (wrap_text "aa bb cc" pylen 2).length = 3 ∧
    displayedCellLines "aa bb cc" pylen 2 = ["aa", "bb"] := by
  decide

/-- C9: submitting a question list that does not parse to exactly 4
non-blank trimmed lines is rejected with the wrong-question-count error,
leaves the store untouched and stays in `SETUP_QUESTIONS`; exactly 4
questions are saved under the user's id (and are then found by lookup) and
the setup conversation ends. -/
theorem setup_questions_count (store : List (String × PyConfig)) (user_id : String)
    (pairsCtx : List String) (text : String) :
    ((parse_questions text).length ≠ 4 →
      setup_questions store user_id pairsCtx text =
        (store, ConvState.SETUP_QUESTIONS,
          some (SetupError.wrongQuestionCount (parse_questions text).length))) ∧
    ((parse_questions text).length = 4 →
      setup_questions store user_id pairsCtx text =
        (save_user_config store user_id
            { pairs := pairsCtx, questions := parse_questions text },
          ConvState.END, none) ∧
      pyDictGet (setup_questions store user_id pairsCtx text).1 user_id =
        some { pairs := pairsCtx, questions := parse_questions text }) := by
  constructor
  · intro h
    simp [setup_questions, h]
  · intro h
    refine ⟨by simp [setup_questions, h], ?_⟩
    simp [setup_questions, h, save_user_config, pyDictGet_pyDictSet_self]

/-- C9 witness: three lines are rejected with count 3 and the store stays
empty; four lines are saved and can be looked up. -/
theorem setup_questions_count_witness :
    ((parse_questions "a\nb\nc").length ≠ 4 ∧
      setup_questions [] "u" ["P"] "a\nb\nc" =
        ([], ConvState.SETUP_QUESTIONS, some (SetupError.wrongQuestionCount 3))) ∧
    ((parse_questions "a\nb\nc\nd").length = 4 ∧
      pyDictGet (setup_questions [] "u" ["P"] "a\nb\nc\nd").1 "u" =
        some { pairs := ["P"], questions := ["a", "b", "c", "d"] }) := by
  constructor
  · refine ⟨by decide, ?_⟩
    have h := (setup_questions_count [] "u" ["P"] "a\nb\nc").1 (by decide)
    rw [h]; decide
  · refine ⟨by decide, ?_⟩
    have h := ((setup_questions_count [] "u" ["P"] "a\nb\nc\nd").2 (by decide)).2
    rw [h]; decide

/-! ## Claim theorems: verdict cell rendering -/

/-- C2: for every answer in the last (verdict) column, the rendered cell is
the single unwrapped string `symbol ++ " " ++ answer` in the category's
color, where the category is the case-insensitive substring classification
(`buy` first, then `sell`, otherwise standby) that the spec describes. -/
theorem verdict_cell_render (questions : List String) (measure : String → Nat)
    (qcw : Nat) (answer : String) :
    renderBodyCell questions measure qcw (questions.length - 1) answer =
      CellRender.verdict (specColor (specVerdictCategory answer))
        (specSymbol (specVerdictCategory answer) ++ " " ++ answer) := by
  simp only [renderBodyCell, if_pos rfl, renderVerdictCell, specVerdictCategory]
  by_cases hb : strIn "buy" (pylower answer) = true
  · simp [hb, specSymbol, specColor]
  · by_cases hs : strIn "sell" (pylower answer) = true <;>
      simp [hb, hs, specSymbol, specColor]

/-- C10: when the lowercased answer contains both `"buy"` and `"sell"`, the
verdict cell uses the BUY styling (symbol `▲`, color verdict-buy) — the
`buy` test comes first in the `if`/`elif` chain. -/
theorem verdict_buy_precedence (questions : List String) (measure : String → Nat)
    (qcw : Nat) (answer : String)
    (hb : strIn "buy" (pylower answer) = true)
    (_hs : strIn "sell" (pylower answer) = true) :
    renderBodyCell questions measure qcw (questions.length - 1) answer =
      CellRender.verdict COLORS_verdict_buy ("▲" ++ " " ++ answer) := by
  simp [renderBodyCell, renderVerdictCell, hb]

/-- C10 witness: `"Buy/Sell"` contains both substrings and renders with the
BUY symbol and color. -/
theorem verdict_buy_precedence_witness :
    strIn "buy" (pylower "Buy/Sell") = true ∧
    strIn "sell" (pylower "Buy/Sell") = true ∧
    renderBodyCell ["Q", "V"] pylen 200 1 "Buy/Sell" =
      CellRender.verdict COLORS_verdict_buy ("▲" ++ " " ++ "Buy/Sell") :=
  ⟨by decide, by decide,
    verdict_buy_precedence ["Q", "V"] pylen 200 "Buy/Sell" (by decide) (by decide)⟩

/-! ## Claim theorem: verdict validation -/

/-- C5: at a verdict slot of a reachable session (the current pair's
answers entry exists, which holds whenever a free-text answer preceded the
verdict), a submission succeeds exactly when the trimmed text is one of the
case-sensitive literals `Buy`, `Sell`, `Stand by`; any other text is
rejected with `invalidVerdict` and the session — indices and answers — is
returned unchanged. -/
theorem verdict_validation (s : Session) (t : String)
    (hslot : s.qIdx = s.questions.length - 1)
    (hkey : (pyDictGet s.answers (s.pairs.getD s.pairIdx "")).isSome = true) :
    ((submitMessage s t).2 = none ↔
      (pystrip t = "Buy" ∨ pystrip t = "Sell" ∨ pystrip t = "Stand by")) ∧
    (¬(pystrip t = "Buy" ∨ pystrip t = "Sell" ∨ pystrip t = "Stand by") →
      submitMessage s t = (s, some SubmitError.invalidVerdict)) := by
  rw [Option.isSome_iff_exists] at hkey
  obtain ⟨v, hv⟩ := hkey
  have hstep : submitMessage s t = handle_verdict s t := by
    unfold submitMessage
    rw [if_pos hslot]
  by_cases htok : pystrip t = "Buy" ∨ pystrip t = "Sell" ∨ pystrip t = "Stand by"
  · have h2 : (handle_verdict s t).2 = none := by
      simp only [handle_verdict]
      rw [if_pos htok, hv]
    rw [hstep]
    exact ⟨Iff.intro (fun _ => htok) (fun _ => h2), fun hcon => absurd htok hcon⟩
  · have h3 : handle_verdict s t = (s, some SubmitError.invalidVerdict) := by
      simp only [handle_verdict]
      rw [if_neg htok]
    rw [hstep, h3]
    exact ⟨Iff.intro (fun h => Option.noConfusion h) (fun h => absurd h htok),
      fun _ => rfl⟩

/-! ## Lemmas about `joinSp` and the wrapper loop -/

theorem strAppend_assoc : ∀ a b c : String, a ++ b ++ c = a ++ (b ++ c)
  | ⟨a⟩, ⟨b⟩, ⟨c⟩ => congrArg String.mk (List.append_assoc a b c)

theorem joinSp_cons (w : String) (ws : List String) (h : ws ≠ []) :
    joinSp (w :: ws) = w ++ " " ++ joinSp ws := by
  cases ws with
  | nil => exact absurd rfl h
  | cons v vs => rfl

theorem joinSp_append (a b : List String) (ha : a ≠ []) (hb : b ≠ []) :
    joinSp (a ++ b) = joinSp a ++ " " ++ joinSp b := by
  induction a with
  | nil => exact absurd rfl ha
  | cons x xs ih =>
      cases xs with
      | nil =>
          rw [List.singleton_append, joinSp_cons x b hb]
          rfl
      | cons y ys =>
          have hxs : (y :: ys : List String) ≠ [] := by simp
          have hne : ((y :: ys) ++ b : List String) ≠ [] := by simp
          rw [List.cons_append, joinSp_cons x _ hne, ih hxs, joinSp_cons x _ hxs]
          simp only [strAppend_assoc]

theorem joinSp_append_single (a : List String) (w : String) (ha : a ≠ []) :
    joinSp (a ++ [w]) = joinSp a ++ " " ++ w :=
  joinSp_append a [w] ha (by simp)

theorem joinSp_join (blocks : List (List String)) (h : ∀ b ∈ blocks, b ≠ []) :
    joinSp (blocks.map joinSp) = joinSp blocks.flatten := by
  induction blocks with
  | nil => rfl
  | cons b bs ih =>
      cases bs with
      | nil => simp [joinSp]
      | cons c cs =>
          have hb : b ≠ [] := h b (by simp)
          have hrest : ∀ x ∈ c :: cs, x ≠ [] := fun x hx => h x (List.mem_cons_of_mem _ hx)
          have hc : c ≠ [] := hrest c (by simp)
          have hjoin : (c :: cs).flatten ≠ [] := by
            cases c with
            | nil => exact absurd rfl hc
            | cons ch ct => simp [List.flatten]
          have hmapne : ((c :: cs).map joinSp) ≠ [] := by simp
          rw [List.map_cons, joinSp_cons _ _ hmapne, ih hrest]
          conv_rhs => rw [List.flatten_cons]
          rw [joinSp_append b (c :: cs).flatten hb hjoin]

theorem wrapCore_nil (measure : String → Nat) (W : Nat) (lines current : List String) :
    wrapCore measure W lines current [] =
      if current = [] then lines else lines ++ [joinSp current] := rfl

theorem wrapCore_cons (measure : String → Nat) (W : Nat) (lines current : List String)
    (w : String) (rest : List String) :
    wrapCore measure W lines current (w :: rest) =
      if measure (joinSp (current ++ [w])) ≤ W then
        wrapCore measure W lines (current ++ [w]) rest
      else if current = [] then wrapCore measure W lines [w] rest
      else wrapCore measure W (lines ++ [joinSp current]) [w] rest := rfl

/-- The wrapper loop partitions the incoming words (current line included)
into nonempty contiguous blocks and appends one joined line per block. -/
theorem wrapCore_blocks (measure : String → Nat) (W : Nat) :
    ∀ (rest current lines : List String),
      ∃ blocks : List (List String),
        blocks.flatten = current ++ rest ∧
        (∀ b ∈ blocks, b ≠ []) ∧
        wrapCore measure W lines current rest = lines ++ blocks.map joinSp := by
  intro rest
  induction rest with
  | nil =>
      intro current lines
      by_cases h : current = []
      · exact ⟨[], by simp [h], by simp, by rw [wrapCore_nil, if_pos h]; simp⟩
      · exact ⟨[current], by simp, by simp [h], by rw [wrapCore_nil, if_neg h]; simp⟩
  | cons w rest ih =>
      intro current lines
      by_cases h1 : measure (joinSp (current ++ [w])) ≤ W
      · obtain ⟨bs, hj, hne, heq⟩ := ih (current ++ [w]) lines
        refine ⟨bs, ?_, hne, ?_⟩
        · rw [hj]; simp
        · rw [wrapCore_cons, if_pos h1]; exact heq
      · by_cases h2 : current = []
        · obtain ⟨bs, hj, hne, heq⟩ := ih [w] lines
          refine ⟨bs, ?_, hne, ?_⟩
          · rw [hj, h2]; simp
          · rw [wrapCore_cons, if_neg h1, if_pos h2]; exact heq
        · obtain ⟨bs, hj, hne, heq⟩ := ih [w] (lines ++ [joinSp current])
          refine ⟨current :: bs, ?_, ?_, ?_⟩
          · simp [hj]
          · intro b hb
            rcases List.mem_cons.mp hb with rfl | hb'
            · exact h2
            · exact hne b hb'
          · rw [wrapCore_cons, if_neg h1, if_neg h2, heq]
            simp

/-- Lines already emitted stay in the wrapper's output. -/
theorem wrapCore_mem_lines (measure : String → Nat) (W : Nat) :
    ∀ (rest current lines : List String) (l : String), l ∈ lines →
      l ∈ wrapCore measure W lines current rest := by
  intro rest
  induction rest with
  | nil =>
      intro current lines l hl
      rw [wrapCore_nil]
      by_cases h : current = []
      · rwa [if_pos h]
      · rw [if_neg h]; exact List.mem_append_left _ hl
  | cons w rest ih =>
      intro current lines l hl
      rw [wrapCore_cons]
      by_cases h1 : measure (joinSp (current ++ [w])) ≤ W
      · rw [if_pos h1]; exact ih _ _ _ hl
      · rw [if_neg h1]
        by_cases h2 : current = []
        · rw [if_pos h2]; exact ih _ _ _ hl
        · rw [if_neg h2]; exact ih _ _ _ (List.mem_append_left _ hl)

/-- With a measure that never shrinks when text is appended on either side
of a space, a current line holding exactly one over-wide word is flushed as
its own line. -/
theorem wrapCore_wide_current (measure : String → Nat) (W : Nat)
    (hmono : ∀ s t : String, measure s ≤ measure (s ++ " " ++ t) ∧
      measure t ≤ measure (s ++ " " ++ t)) :
    ∀ (rest lines : List String) (w : String), W < measure w →
      w ∈ wrapCore measure W lines [w] rest := by
  intro rest
  cases rest with
  | nil =>
      intro lines w _
      rw [wrapCore_nil, if_neg (by simp)]
      simp [joinSp]
  | cons v rest =>
      intro lines w hw
      rw [wrapCore_cons]
      have hcond : ¬ measure (joinSp ([w] ++ [v])) ≤ W := fun hle =>
        absurd (le_trans (hmono w v).1 hle) (not_le.mpr hw)
      rw [if_neg hcond, if_neg (by simp)]
      exact wrapCore_mem_lines measure W rest [v] (lines ++ [joinSp [w]]) w (by simp [joinSp])

/-- With such a measure, every over-wide word of the input ends up alone on
its own line. -/
theorem wrapCore_wide_mem (measure : String → Nat) (W : Nat)
    (hmono : ∀ s t : String, measure s ≤ measure (s ++ " " ++ t) ∧
      measure t ≤ measure (s ++ " " ++ t)) :
    ∀ (rest current lines : List String) (w : String), w ∈ rest → W < measure w →
      w ∈ wrapCore measure W lines current rest := by
  intro rest
  induction rest with
  | nil =>
      intro current lines w hmem _
      exact absurd hmem (List.not_mem_nil w)
  | cons a rest ih =>
      intro current lines w hmem hw
      rw [wrapCore_cons]
      rcases List.mem_cons.mp hmem with rfl | hmem'
      · by_cases h2 : current = []
        · subst h2
          have hcond : ¬ measure (joinSp ([] ++ [w])) ≤ W := not_le.mpr hw
          rw [if_neg hcond, if_pos rfl]
          exact wrapCore_wide_current measure W hmono rest lines w hw
        · have hcond : ¬ measure (joinSp (current ++ [w])) ≤ W := by
            rw [joinSp_append_single current w h2]
            exact fun hle => absurd (le_trans (hmono (joinSp current) w).2 hle) (not_le.mpr hw)
          rw [if_neg hcond, if_neg h2]
          exact wrapCore_wide_current measure W hmono rest (lines ++ [joinSp current]) w hw
      · by_cases h1 : measure (joinSp (current ++ [a])) ≤ W
        · rw [if_pos h1]; exact ih _ _ _ hmem' hw
        · rw [if_neg h1]
          by_cases h2 : current = []
          · rw [if_pos h2]; exact ih _ _ _ hmem' hw
          · rw [if_neg h2]; exact ih _ _ _ hmem' hw

/-! ## Claim theorems: the word wrapper -/

/-- C4 (amended): the wrapper never splits a word — its output is the input
word sequence cut into nonempty contiguous blocks, one line per block — and
joining the lines with single spaces reconstructs the words of the text
joined by single spaces (hence the text itself exactly when the text's
whitespace is already normalized; a wordless text comes back verbatim).
The per-word width bound of the claim is kept as hypothesis. -/
theorem wrap_reconstructs (text : String) (measure : String → Nat) (W : Nat)
    (_hw : ∀ w ∈ pywords text, measure w ≤ W) :
    (∃ blocks : List (List String),
        blocks.flatten = pywords text ∧
        (∀ b ∈ blocks, b ≠ []) ∧
        (pywords text ≠ [] → wrap_text text measure W = blocks.map joinSp)) ∧
    joinSp (wrap_text text measure W) =
      (if pywords text = [] then text else joinSp (pywords text)) := by
  obtain ⟨bs, hj, hne, heq⟩ := wrapCore_blocks measure W (pywords text) [] []
  rw [List.nil_append] at hj heq
  by_cases hw0 : pywords text = []
  · have hcore : wrapCore measure W [] [] (pywords text) = [] := by rw [hw0]; rfl
    have hwt : wrap_text text measure W = [text] := by
      unfold wrap_text
      rw [hcore, if_pos rfl]
    refine ⟨⟨[], by simp [hw0], by simp, fun hcon => absurd hw0 hcon⟩, ?_⟩
    rw [if_pos hw0, hwt]
    rfl
  · have hbs : bs ≠ [] := by
      intro h0
      rw [h0] at hj
      exact hw0 hj.symm
    have hmapne : bs.map joinSp ≠ [] := by simp [hbs]
    have hcorene : wrapCore measure W [] [] (pywords text) ≠ [] := by
      rw [heq]; exact hmapne
    have hwt : wrap_text text measure W = bs.map joinSp := by
      unfold wrap_text
      rw [if_neg hcorene, heq]
    refine ⟨⟨bs, hj, hne, fun _ => hwt⟩, ?_⟩
    rw [if_neg hw0, hwt, joinSp_join bs hne, hj]

/-- C4 counterexample: the claim as stated fails on a text whose whitespace
is not single spaces: every word of `"a  b"` fits easily in the bound, yet
joining the wrapped lines with single spaces yields `"a b"`, not the
original text. -/
theorem wrap_reconstructs_cex :
    (∀ w ∈ pywords "a  b", pylen w ≤ 10) ∧
    joinSp (wrap_text "a  b" pylen 10) = "a b" ∧
    joinSp (wrap_text "a  b" pylen 10) ≠ "a  b" := by
  decide

/-- C4 witness: a normalized text is reconstructed exactly. -/
theorem wrap_reconstructs_witness :
    (∀ w ∈ pywords "hello world", pylen w ≤ 11) ∧
    joinSp (wrap_text "hello world" pylen 11) =
      (if pywords "hello world" = [] then "hello world" else joinSp (pywords "hello world")) :=
  ⟨by decide, (wrap_reconstructs "hello world" pylen 11 (by decide)).2⟩

/-- C6 (amended): when the measure never shrinks under appending on either
side of a space (true of any real text-width metric), every word measuring
more than the bound appears alone as one of the output lines; and for any
measure whatsoever, a text consisting of a single word wraps to exactly
that word as the single line, untruncated.  The restriction on the measure
is forced: the claim quantifies over every measure function, and a
non-monotone measure can pack a following word onto the over-wide word's
line (see the counterexample). -/
theorem wide_word_alone (text : String) (measure : String → Nat) (W : Nat)
    (hmono : ∀ s t : String, measure s ≤ measure (s ++ " " ++ t) ∧
      measure t ≤ measure (s ++ " " ++ t)) :
    (∀ w ∈ pywords text, W < measure w → w ∈ wrap_text text measure W) ∧
    (∀ w : String, pywords text = [w] → wrap_text text measure W = [w]) := by
  constructor
  · intro w hmem hw
    have hcore : w ∈ wrapCore measure W [] [] (pywords text) :=
      wrapCore_wide_mem measure W hmono (pywords text) [] [] w hmem hw
    have hcorene : wrapCore measure W [] [] (pywords text) ≠ [] := by
      intro h0
      rw [h0] at hcore
      exact List.not_mem_nil w hcore
    unfold wrap_text
    rw [if_neg hcorene]
    exact hcore
  · intro w hw1
    have hws : wrapCore measure W [] [] (pywords text) = [w] := by
      rw [hw1, wrapCore_cons]
      by_cases h1 : measure (joinSp ([] ++ [w])) ≤ W
      · rw [if_pos h1, wrapCore_nil, if_neg (by simp)]
        simp [joinSp]
      · rw [if_neg h1, if_pos rfl, wrapCore_nil, if_neg (by simp)]
        simp [joinSp]
    unfold wrap_text
    rw [hws, if_neg (by simp)]

/-- C6 counterexample theorem: under the (perfectly legal, non-monotone)
measure `cexMeasure`, which gives `"AAAA b"` width 0 and every other string
its length, the word `"AAAA"` measures 4 > 3 yet the wrapper emits the
single line `"AAAA b"` — the over-wide word is not alone on its line, so
the claim fails for this measure at bound 3. -/
theorem wide_word_alone_cex :
    3 < cexMeasure "AAAA" ∧ "AAAA" ∈ pywords "AAAA b" ∧
    wrap_text "AAAA b" cexMeasure 3 = ["AAAA b"] ∧
    "AAAA" ∉ wrap_text "AAAA b" cexMeasure 3 := by
  decide

/-- C6 witness: under the constant measure 500 with bound 200 the over-wide
word gets its own line, and a one-word 500px text in a 200px column wraps
to exactly that word. -/
theorem wide_word_alone_witness :
    "word" ∈ wrap_text "word another" (fun _ => 500) 200 ∧
    wrap_text "word" (fun _ => 500) 200 = ["word"] :=
  ⟨(wide_word_alone "word another" (fun _ => 500) 200
      (fun _ _ => ⟨le_refl 500, le_refl 500⟩)).1 "word" (by decide) (by decide),
    (wide_word_alone "word" (fun _ => 500) 200
      (fun _ _ => ⟨le_refl 500, le_refl 500⟩)).2 "word" (by decide)⟩

/-- C5 witness: `"Maybe"` at a verdict slot is rejected with
`invalidVerdict` and the state comes back unchanged, while `"Buy"`
succeeds. -/
theorem verdict_validation_witness :
    submitMessage
        { pairs := ["A"], questions := ["Q", "V"], pairIdx := 0, qIdx := 1,
          answers := [("A", ["x"])] } "Maybe" =
      ({ pairs := ["A"], questions := ["Q", "V"], pairIdx := 0, qIdx := 1,
          answers := [("A", ["x"])] }, some SubmitError.invalidVerdict) ∧
    (submitMessage
        { pairs := ["A"], questions := ["Q", "V"], pairIdx := 0, qIdx := 1,
          answers := [("A", ["x"])] } "Buy").2 = none :=
  ⟨(verdict_validation _ "Maybe" (by decide) (by decide)).2 (by decide),
    ((verdict_validation _ "Buy" (by decide) (by decide)).1).mpr (by decide)⟩

/-! ## Session progress: one valid message advances the run by one slot -/

/-- A valid message to an active reachable session (with at least two
questions) is accepted, keeps the configuration, preserves the invariant,
and advances the flattened slot counter `pairIdx * N + qIdx` by exactly
one. -/
theorem submit_valid_progress (s : Session) (t : String)
    (hN : 2 ≤ s.questions.length)
    (hact : s.pairIdx < s.pairs.length)
    (hinv : SessionInv s)
    (hval : validMessage s t = true) :
    (submitMessage s t).2 = none ∧
    (submitMessage s t).1.pairs = s.pairs ∧
    (submitMessage s t).1.questions = s.questions ∧
    SessionInv (submitMessage s t).1 ∧
    (submitMessage s t).1.pairIdx * s.questions.length + (submitMessage s t).1.qIdx
      = s.pairIdx * s.questions.length + s.qIdx + 1 ∧
    (submitMessage s t).1.pairIdx ≤ s.pairs.length := by
  by_cases hslot : s.qIdx = s.questions.length - 1
  · have htok : pystrip t = "Buy" ∨ pystrip t = "Sell" ∨ pystrip t = "Stand by" := by
      rw [validMessage, if_pos hslot] at hval
      exact of_decide_eq_true hval
    have hq0 : 0 < s.qIdx := by omega
    obtain ⟨v, hv⟩ := Option.isSome_iff_exists.mp (hinv.2 hq0)
    have hstep : submitMessage s t =
        ({ s with answers := dictAppendAnswer s.answers (s.pairs.getD s.pairIdx "") (pystrip t),
                  pairIdx := s.pairIdx + 1, qIdx := 0 }, none) := by
      unfold submitMessage
      rw [if_pos hslot]
      simp only [handle_verdict]
      rw [if_pos htok, hv]
    rw [hstep]
    refine ⟨rfl, rfl, rfl, ⟨?_, ?_⟩, ?_, ?_⟩
    · show 0 < s.questions.length
      omega
    · intro h
      exact absurd h (lt_irrefl 0)
    · show (s.pairIdx + 1) * s.questions.length + 0
        = s.pairIdx * s.questions.length + s.qIdx + 1
      rw [Nat.succ_mul]
      generalize s.pairIdx * s.questions.length = A
      omega
    · show s.pairIdx + 1 ≤ s.pairs.length
      omega
  · have hne : pystrip t ≠ "" := by
      rw [validMessage, if_neg hslot] at hval
      exact of_decide_eq_true hval
    have hq2 : ¬ s.questions.length ≤ s.qIdx + 1 := by
      have h1 := hinv.1
      omega
    by_cases hsome : (pyDictGet s.answers (s.pairs.getD s.pairIdx "")).isSome = true
    · obtain ⟨v, hv⟩ := Option.isSome_iff_exists.mp hsome
      have hstep : submitMessage s t =
          ({ s with
              answers := dictAppendAnswer s.answers (s.pairs.getD s.pairIdx "") (pystrip t),
              qIdx := s.qIdx + 1 }, none) := by
        unfold submitMessage
        rw [if_neg hslot]
        simp only [handle_answer]
        rw [if_neg hne, if_neg hq2, if_pos hsome]
      rw [hstep]
      refine ⟨rfl, rfl, rfl, ⟨?_, ?_⟩, ?_, ?_⟩
      · show s.qIdx + 1 < s.questions.length
        omega
      · intro _
        show (pyDictGet
            (dictAppendAnswer s.answers (s.pairs.getD s.pairIdx "") (pystrip t))
            (s.pairs.getD s.pairIdx "")).isSome = true
        rw [pyDictGet_dictAppendAnswer_self s.answers (s.pairs.getD s.pairIdx "")
          (pystrip t) v hv]
        rfl
      · rfl
      · exact le_of_lt hact
    · have hnone : pyDictGet s.answers (s.pairs.getD s.pairIdx "") = none := by
        cases h : pyDictGet s.answers (s.pairs.getD s.pairIdx "") with
        | none => rfl
        | some w => exact absurd (by rw [h]; rfl) hsome
      have hstep : submitMessage s t =
          ({ s with
              answers := dictAppendAnswer (s.answers ++ [(s.pairs.getD s.pairIdx "", [])])
                (s.pairs.getD s.pairIdx "") (pystrip t),
              qIdx := s.qIdx + 1 }, none) := by
        unfold submitMessage
        rw [if_neg hslot]
        simp only [handle_answer]
        rw [if_neg hne, if_neg hq2, if_neg hsome]
      rw [hstep]
      refine ⟨rfl, rfl, rfl, ⟨?_, ?_⟩, ?_, ?_⟩
      · show s.qIdx + 1 < s.questions.length
        omega
      · intro _
        show (pyDictGet
            (dictAppendAnswer (s.answers ++ [(s.pairs.getD s.pairIdx "", [])])
              (s.pairs.getD s.pairIdx "") (pystrip t))
            (s.pairs.getD s.pairIdx "")).isSome = true
        rw [pyDictGet_dictAppendAnswer_self _ (s.pairs.getD s.pairIdx "") (pystrip t) []
          (pyDictGet_append_new s.answers (s.pairs.getD s.pairIdx "") [] hnone)]
        rfl
      · rfl
      · exact le_of_lt hact

/-- Running a list of messages that are all valid, of length at most the
number of remaining slots, never errors, keeps the configuration and the
invariant, and advances the flattened slot counter by exactly the number of
messages. -/
theorem runSubmits_valid : ∀ (ins : List String) (s : Session),
    2 ≤ s.questions.length →
    SessionInv s →
    validRun s ins = true →
    s.pairIdx * s.questions.length + s.qIdx + ins.length ≤
      s.pairs.length * s.questions.length →
    (runSubmits s ins).2 = none ∧
    (runSubmits s ins).1.pairs = s.pairs ∧
    (runSubmits s ins).1.questions = s.questions ∧
    SessionInv (runSubmits s ins).1 ∧
    (runSubmits s ins).1.pairIdx * s.questions.length + (runSubmits s ins).1.qIdx
      = s.pairIdx * s.questions.length + s.qIdx + ins.length := by
  intro ins
  induction ins with
  | nil =>
      intro s _ hinv _ _
      exact ⟨rfl, rfl, rfl, hinv, rfl⟩
  | cons t ts ih =>
      intro s hN hinv hval hbound
      simp only [List.length_cons] at hbound
      rw [validRun_cons, Bool.and_eq_true] at hval
      obtain ⟨hv1, hv2⟩ := hval
      have hact : s.pairIdx < s.pairs.length := by
        have hlt : s.pairIdx * s.questions.length < s.pairs.length * s.questions.length := by
          generalize s.pairIdx * s.questions.length = A at hbound
          generalize s.pairs.length * s.questions.length = B at hbound
          omega
        exact lt_of_mul_lt_mul_right hlt (Nat.zero_le _)
      obtain ⟨hs2, hsp, hsq, hsinv, hsprog, _⟩ := submit_valid_progress s t hN hact hinv hv1
      have hrun : runSubmits s (t :: ts) = runSubmits (submitMessage s t).1 ts := by
        rw [runSubmits_cons]
        cases hsub : submitMessage s t with
        | mk s1 e =>
            rw [hsub] at hs2
            cases e with
            | none => rfl
            | some e0 => exact Option.noConfusion hs2
      have hN' : 2 ≤ (submitMessage s t).1.questions.length := by
        rw [hsq]; exact hN
      have hbound' : (submitMessage s t).1.pairIdx * (submitMessage s t).1.questions.length +
          (submitMessage s t).1.qIdx + ts.length ≤
          (submitMessage s t).1.pairs.length * (submitMessage s t).1.questions.length := by
        rw [hsq, hsp]
        generalize (submitMessage s t).1.pairIdx * s.questions.length = A2 at hsprog ⊢
        generalize s.pairIdx * s.questions.length = A at hsprog hbound
        generalize s.pairs.length * s.questions.length = B at hbound ⊢
        omega
      obtain ⟨ih1, ih2, ih3, ih4, ih5⟩ := ih (submitMessage s t).1 hN' hsinv hv2 hbound'
      rw [hsq] at ih5
      refine ⟨?_, ?_, ?_, ?_, ?_⟩
      · rw [hrun]; exact ih1
      · rw [hrun]; exact ih2.trans hsp
      · rw [hrun]; exact ih3.trans hsq
      · rw [hrun]; exact ih4
      · rw [hrun]
        simp only [List.length_cons]
        generalize (runSubmits (submitMessage s t).1 ts).1.pairIdx * s.questions.length = C
          at ih5 ⊢
        generalize (submitMessage s t).1.pairIdx * s.questions.length = A2 at ih5 hsprog
        generalize s.pairIdx * s.questions.length = A at hsprog ⊢
        omega

/-- Every prefix of a valid run is a valid run. -/
theorem validRun_take : ∀ (ins : List String) (k : Nat) (s : Session),
    validRun s ins = true → validRun s (List.take k ins) = true := by
  intro ins
  induction ins with
  | nil =>
      intro k s _
      rw [List.take_nil]
      rfl
  | cons t ts ih =>
      intro k s h
      cases k with
      | zero => rfl
      | succ k =>
          rw [List.take_succ_cons, validRun_cons]
          rw [validRun_cons, Bool.and_eq_true] at h
          obtain ⟨h1, h2⟩ := h
          rw [h1, ih k _ h2]
          rfl

/-! ## Claim theorem: session completion -/

/-- C1 (amended): for every configuration with non-empty pairs and at least
two questions, starting a session and submitting exactly
`len(pairs) * len(questions)` valid answers in order (non-blank free text at
non-verdict slots, a literal token at verdict slots) moves the session to
Completed exactly at the last submission — no proper prefix of the run
completes it, and the full run is accepted without rejection and ends
Completed.  The restriction to at least two questions is forced by the
counterexample: with a single, verdict-only question the very first valid
submission raises a `KeyError` (`answers[current_pair]` is only ever created
by the free-text handler), so the session never completes. -/
theorem session_completion (pairs questions ins : List String)
    (_hp : pairs ≠ [])
    (hq : 2 ≤ questions.length)
    (hlen : ins.length = pairs.length * questions.length)
    (hvalid : validRun (startSession pairs questions) ins = true) :
    (∀ k, k < ins.length →
      isCompleted (runSubmits (startSession pairs questions) (List.take k ins)).1 = false) ∧
    (runSubmits (startSession pairs questions) ins).2 = none ∧
    isCompleted (runSubmits (startSession pairs questions) ins).1 = true := by
  have hinv0 : SessionInv (startSession pairs questions) := by
    refine ⟨?_, ?_⟩
    · show 0 < questions.length
      omega
    · intro h
      exact absurd h (lt_irrefl 0)
  refine ⟨?_, ?_, ?_⟩
  · intro k hk
    have htk := validRun_take ins k (startSession pairs questions) hvalid
    have hklen : (List.take k ins).length = k := by
      rw [List.length_take]
      omega
    have hbound : (startSession pairs questions).pairIdx *
          (startSession pairs questions).questions.length +
          (startSession pairs questions).qIdx + (List.take k ins).length ≤
        (startSession pairs questions).pairs.length *
          (startSession pairs questions).questions.length := by
      show 0 * questions.length + 0 + (List.take k ins).length ≤
        pairs.length * questions.length
      rw [Nat.zero_mul, hklen]
      generalize pairs.length * questions.length = B at hlen ⊢
      omega
    obtain ⟨_, hps, _, _, hmeas⟩ :=
      runSubmits_valid (List.take k ins) (startSession pairs questions) hq hinv0 htk hbound
    have hps' : (runSubmits (startSession pairs questions) (List.take k ins)).1.pairs =
        pairs := hps
    have hmeas' : (runSubmits (startSession pairs questions) (List.take k ins)).1.pairIdx *
          questions.length +
        (runSubmits (startSession pairs questions) (List.take k ins)).1.qIdx =
        0 * questions.length + 0 + (List.take k ins).length := hmeas
    rw [Nat.zero_mul, hklen] at hmeas'
    have hplt : (runSubmits (startSession pairs questions) (List.take k ins)).1.pairIdx <
        pairs.length := by
      by_contra hge
      push_neg at hge
      have h1 : pairs.length * questions.length ≤
          (runSubmits (startSession pairs questions) (List.take k ins)).1.pairIdx *
            questions.length :=
        Nat.mul_le_mul hge (le_refl questions.length)
      generalize (runSubmits (startSession pairs questions)
        (List.take k ins)).1.pairIdx * questions.length = C at h1 hmeas'
      generalize pairs.length * questions.length = B at h1 hlen
      omega
    unfold isCompleted
    rw [hps']
    exact decide_eq_false (by omega)
  · have hbound : (startSession pairs questions).pairIdx *
          (startSession pairs questions).questions.length +
          (startSession pairs questions).qIdx + ins.length ≤
        (startSession pairs questions).pairs.length *
          (startSession pairs questions).questions.length := by
      show 0 * questions.length + 0 + ins.length ≤ pairs.length * questions.length
      rw [Nat.zero_mul]
      generalize pairs.length * questions.length = B at hlen ⊢
      omega
    obtain ⟨hok, _, _, _, _⟩ :=
      runSubmits_valid ins (startSession pairs questions) hq hinv0 hvalid hbound
    exact hok
  · have hbound : (startSession pairs questions).pairIdx *
          (startSession pairs questions).questions.length +
          (startSession pairs questions).qIdx + ins.length ≤
        (startSession pairs questions).pairs.length *
          (startSession pairs questions).questions.length := by
      show 0 * questions.length + 0 + ins.length ≤ pairs.length * questions.length
      rw [Nat.zero_mul]
      generalize pairs.length * questions.length = B at hlen ⊢
      omega
    obtain ⟨_, hps, hqs, hinv', hmeas⟩ :=
      runSubmits_valid ins (startSession pairs questions) hq hinv0 hvalid hbound
    have hps' : (runSubmits (startSession pairs questions) ins).1.pairs = pairs := hps
    have hqs' : (runSubmits (startSession pairs questions) ins).1.questions = questions := hqs
    have hmeas' : (runSubmits (startSession pairs questions) ins).1.pairIdx *
          questions.length +
        (runSubmits (startSession pairs questions) ins).1.qIdx =
        0 * questions.length + 0 + ins.length := hmeas
    rw [Nat.zero_mul] at hmeas'
    have hq' : (runSubmits (startSession pairs questions) ins).1.qIdx <
        questions.length := by
      have h := hinv'.1
      rw [hqs'] at h
      exact h
    have hpge : pairs.length ≤ (runSubmits (startSession pairs questions) ins).1.pairIdx := by
      by_contra hlt
      push_neg at hlt
      have h1 : ((runSubmits (startSession pairs questions) ins).1.pairIdx + 1) *
          questions.length ≤ pairs.length * questions.length :=
        Nat.mul_le_mul hlt (le_refl questions.length)
      rw [Nat.succ_mul] at h1
      generalize (runSubmits (startSession pairs questions) ins).1.pairIdx *
        questions.length = C at h1 hmeas'
      generalize pairs.length * questions.length = B at h1 hlen
      omega
    unfold isCompleted
    rw [hps']
    exact decide_eq_true hpge

/-- C1 counterexample: the non-empty configuration with one pair and a
single (verdict-only) question.  The single submission `"Buy"` is valid for
its slot and the input list has length `len(pairs) * len(questions) = 1`,
yet the run ends with a `KeyError` and the session is not Completed — the
claim fails for `N = 1`. -/
theorem session_completion_cex :
    (["EURUSD"] : List String) ≠ [] ∧
    (["Buy"] : List String).length =
      (["EURUSD"] : List String).length * (["Verdict"] : List String).length ∧
    validRun (startSession ["EURUSD"] ["Verdict"]) ["Buy"] = true ∧
    (runSubmits (startSession ["EURUSD"] ["Verdict"]) ["Buy"]).2 =
      some SubmitError.keyError ∧
    isCompleted (runSubmits (startSession ["EURUSD"] ["Verdict"]) ["Buy"]).1 = false := by
  decide

/-- C1 witness: one pair, two questions, the valid run of length 2 is
accepted, not complete before the last message, and complete after it. -/
theorem session_completion_witness :
    ((["A"] : List String) ≠ [] ∧
      2 ≤ (["Q1", "Verdict"] : List String).length ∧
      (["ans", "Buy"] : List String).length =
        (["A"] : List String).length * (["Q1", "Verdict"] : List String).length ∧
      validRun (startSession ["A"] ["Q1", "Verdict"]) ["ans", "Buy"] = true) ∧
    (runSubmits (startSession ["A"] ["Q1", "Verdict"]) ["ans", "Buy"]).2 = none ∧
    isCompleted (runSubmits (startSession ["A"] ["Q1", "Verdict"]) ["ans", "Buy"]).1 = true :=
  ⟨⟨by decide, by decide, by decide, by decide⟩,
    (session_completion ["A"] ["Q1", "Verdict"] ["ans", "Buy"] (by decide) (by decide)
      (by decide) (by decide)).2.1,
    (session_completion ["A"] ["Q1", "Verdict"] ["ans", "Buy"] (by decide) (by decide)
      (by decide) (by decide)).2.2⟩
